import Mathlib

/-!
Verification development for the OpenSlides backend action engine
(`openslides_backend/action/action.py`).

The engine's data model and operations are embedded shallowly:

* Python dicts become insertion-ordered association lists (`Fields`,
  information maps, the folded-event map of `validate_required_fields`);
  updating an existing key keeps its position, new keys are appended,
  matching CPython dict semantics.
* Python field values become the inductive `Value`, with Python
  truthiness embedded as `Value.truthy`.
* Exceptions become `Except Err`; every stateful engine function is in
  explicit state-passing style, returning `(Except Err α) × DSState`
  so that the datastore collaborator state at the point of an exception
  stays observable.
* External collaborators (datastore, permission service, relation
  manager, per-action pluggable steps) are parameters, mirroring the
  spec's component boundaries.
-/

/-- Python values as used by the engine: `None`, booleans, ints, strings
and lists of ints (relation id lists such as `speaker_ids`). -/
inductive Value where
  | vnone : Value
  | vbool : Bool → Value
  | vint : Int → Value
  | vstr : String → Value
  | vints : List Int → Value
deriving DecidableEq

/-- Python truthiness of a `Value` (`bool(x)`). -/
def Value.truthy : Value → Bool
  | .vnone => false
  | .vbool b => b
  | .vint n => n != 0
  | .vstr s => !s.isEmpty
  | .vints l => !l.isEmpty

def valueToInt : Value → Int
  | .vint n => n
  | _ => 0

def valueToInts : Value → List Int
  | .vints l => l
  | _ => []

/-- An instance / partial model: insertion-ordered field map. -/
abbrev Fields : Type := List (String × Value)

/-- Lookup of a key in a field map (`instance.get(field)` without default). -/
def getField : Fields → String → Option Value
  | [], _ => none
  | kv :: rest, f => if kv.1 = f then some kv.2 else getField rest f

/-- Lookup with Python `dict.get` default `None`. -/
def getD (fields : Fields) (f : String) : Value :=
  (getField fields f).getD Value.vnone

/-- Set one key: replace in place when present, append when absent
(CPython dict assignment). -/
def setField : Fields → String → Value → Fields
  | [], k, v => [(k, v)]
  | kv :: rest, k, v => if kv.1 = k then (k, v) :: rest else kv :: setField rest k v

/-- Python `a.update(b)`. -/
def updateFields (a b : Fields) : Fields :=
  b.foldl (fun acc kv => setField acc kv.1 kv.2) a

/-- Embeds `FullQualifiedId` from `shared/patterns.py`: (collection, id). -/
structure FQId where
  collection : String
  id : Int
deriving DecidableEq

def fqidToString (fqid : FQId) : String :=
  fqid.collection ++ "/" ++ toString fqid.id

/-- Embeds `FullQualifiedField`: (collection, id, field). -/
structure FQField where
  collection : String
  id : Int
  field : String
deriving DecidableEq

/-- Embeds `EventType` from `shared/interfaces/event.py`. -/
inductive EventType where
  | create
  | update
  | delete
deriving DecidableEq

/-- Embeds `ListFields`: the optional add/remove list-field changes of an event.
An absent side is the empty list (Python: the key is only set when the
side is non-empty, and reading treats a missing key and `{}` alike). -/
structure ListFields where
  add : List (String × List Int)
  remove : List (String × List Int)
deriving DecidableEq

/-- One atomic mutation record. `fields = []` embeds an absent
`fields` key (the engine reads events via `event.get("fields", {})`
and only sets the key for truthy dicts, so `{}` and absence coincide). -/
structure Event where
  type : EventType
  fqid : FQId
  fields : Fields
  list_fields : ListFields
deriving DecidableEq

def isCreate (e : Event) : Bool :=
  match e.type with | .create => true | _ => false

def isUpdate (e : Event) : Bool :=
  match e.type with | .update => true | _ => false

def isDelete (e : Event) : Bool :=
  match e.type with | .delete => true | _ => false

/-- A read record in the locked-fields registry: which fqid was read with
which mapped fields. The registry lives on the datastore collaborator;
the engine only snapshots and resets it, never inspects entries. -/
abbrev LockEntry : Type := FQId × List String

/-- Embeds `WriteRequest` from `shared/interfaces/write_request.py` as used by
the engine: events, per-fqid annotation lists, acting user, lock set. -/
structure WriteRequest where
  events : List Event
  information : List (FQId × List String)
  user_id : Int
  locked_fields : List LockEntry
deriving DecidableEq

/-- Error taxonomy of the engine (`shared/exceptions.py` plus
`ValueError`): schema violations are re-raised as `ActionException`
carrying the schema diagnostic (`Action.validate_payload_element`). -/
inductive Err where
  | actionException (msg : String)
  | permissionDenied (msg : String)
  | requiredFields (msg : String) (fields : List String)
  | valueError (msg : String)
deriving DecidableEq

/-- Lookup in an information map. -/
def lookupInfo : List (FQId × List String) → FQId → Option (List String)
  | [], _ => none
  | kv :: rest, k => if kv.1 = k then some kv.2 else lookupInfo rest k

/-- In-place update of an existing key of an information map. -/
def updInfo : List (FQId × List String) → FQId → (List String → List String) → List (FQId × List String)
  | [], _, _ => []
  | kv :: rest, k, f => if kv.1 = k then (kv.1, f kv.2) :: rest else kv :: updInfo rest k f

/-- One step of the information merge of `merge_write_requests`:
absent keys are inserted, present keys have their list extended. -/
def mergeInfoInto (information : List (FQId × List String)) (fqid : FQId) (texts : List String) : List (FQId × List String) :=
  match lookupInfo information fqid with
  | none => information ++ [(fqid, texts)]
  | some _ => updInfo information fqid (fun old => old ++ texts)

/-- The information merge of one input write request into the
accumulated information map. -/
def mergeInfos (information newInfo : List (FQId × List String)) : List (FQId × List String) :=
  newInfo.foldl (fun acc p => mergeInfoInto acc p.1 p.2) information

/-- The loop of `merge_write_requests`: concatenates events, merges
information, and threads the acting-user accumulator, raising
`ValueError` on a user mismatch. -/
def mergeLoop : List WriteRequest → List Event → List (FQId × List String) → Option Int →
    Except Err (List Event × List (FQId × List String) × Option Int)
  | [], events, information, user => .ok (events, information, user)
  | el :: rest, events, information, none =>
    mergeLoop rest (events ++ el.events) (mergeInfos information el.information) (some el.user_id)
  | el :: rest, events, information, some u =>
    if u = el.user_id then
      mergeLoop rest (events ++ el.events) (mergeInfos information el.information) (some u)
    else .error (.valueError "You can not merge two write request elements of different users.")

/-- Embeds `merge_write_requests` (module-level function of `action.py`). -/
def merge_write_requests (write_requests : List WriteRequest) : Except Err (Option WriteRequest) :=
  match mergeLoop write_requests [] [] none with
  | .error e => .error e
  | .ok (events, information, user) =>
    if events.isEmpty then .ok none
    else
      match user with
      | none => .error (.valueError "At least one of the given user ids must not be None.")
      | some u => .ok (some { events := events, information := information, user_id := u, locked_fields := [] })

/-- The event sort of `Action.process_write_requests`: bucket the events
by type (a fold appending to per-type lists, as the `defaultdict` loop
does) and emit the buckets in create/update/delete order. -/
def sortStep (acc : List Event × List Event × List Event) (e : Event) : List Event × List Event × List Event :=
  match e.type with
  | .create => (acc.1 ++ [e], acc.2.1, acc.2.2)
  | .update => (acc.1, acc.2.1 ++ [e], acc.2.2)
  | .delete => (acc.1, acc.2.1, acc.2.2 ++ [e])

def sortEventsByType (events : List Event) : List Event :=
  let grouped := events.foldl sortStep ([], [], [])
  grouped.1 ++ grouped.2.1 ++ grouped.2.2

/-- Shared state of the datastore collaborator threaded through one
top-level call tree.  `store` is the datastore's read behaviour
(external, interface-only in the repo), `locked_fields` the shared
locked-fields registry, `additional_relation_models_ds` the map the
datastore carries for `execute_other_action`, and `permCalls` counts
consultations of the permission collaborator. -/
structure DSState where
  locked_fields : List LockEntry
  store : FQId → List String → Fields
  additional_relation_models_ds : List (FQId × Fields)
  permCalls : Nat

/-- Modelled from the spec: the datastore collaborator's
`get(ref, fields, lockResult)` (the adapter itself is not under `src/`;
only its `Datastore` protocol is).  It answers from the abstract read
behaviour and, when `lock_result` is set, registers the read into the
shared locked-fields registry. -/
def datastoreGet (fqid : FQId) (mapped_fields : List String) (lock_result : Bool) (st : DSState) : Fields × DSState :=
  (st.store fqid mapped_fields,
   if lock_result then
     { st with locked_fields := st.locked_fields ++ [(fqid, mapped_fields)] }
   else st)

/-- Model maps (`additional_relation_models`): fqid-keyed instance maps. -/
abbrev ModelMap : Type := List (FQId × Fields)

def lookupModel : List (FQId × Fields) → FQId → Option Fields
  | [], _ => none
  | kv :: rest, k => if kv.1 = k then some kv.2 else lookupModel rest k

def setModel : List (FQId × Fields) → FQId → Fields → List (FQId × Fields)
  | [], k, v => [(k, v)]
  | kv :: rest, k, v => if kv.1 = k then (k, v) :: rest else kv :: setModel rest k v

/-- Python `{**a, **b}`: right operand overrides. -/
def mergeModelMaps (a b : List (FQId × Fields)) : List (FQId × Fields) :=
  b.foldl (fun acc kv => setModel acc kv.1 kv.2) a

/-- Embeds `Action.fetch_model`: answer from `additional_relation_models` when
the fqid is present there (restricted to `mapped_fields` when that list
is non-empty, absent fields mapped to `None`), otherwise a locking
datastore read. -/
def fetch_model (additional_relation_models : List (FQId × Fields)) (fqid : FQId) (mapped_fields : List String) (st : DSState) : Fields × DSState :=
  match lookupModel additional_relation_models fqid with
  | some additional_model =>
    if mapped_fields.isEmpty then (additional_model, st)
    else (mapped_fields.map (fun f => (f, getD additional_model f)), st)
  | none => datastoreGet fqid mapped_fields true st

/-- Embeds `Action.process_write_requests`: merge, sort the events by type,
then snapshot the locked-fields registry onto the final write request
and reset the registry. -/
def process_write_requests (write_requests : List WriteRequest) (st : DSState) : (Except Err (Option WriteRequest)) × DSState :=
  match merge_write_requests write_requests with
  | .error e => (.error e, st)
  | .ok none => (.ok none, st)
  | .ok (some write_request) =>
    (.ok (some { write_request with
        events := sortEventsByType write_request.events,
        locked_fields := st.locked_fields }),
     { st with locked_fields := [] })

/-- One entry of the folded per-entity view built by
`Action.validate_required_fields`. -/
structure FoldedEvent where
  type : EventType
  fields : Fields
deriving DecidableEq

def lookupA : List (FQId × FoldedEvent) → FQId → Option FoldedEvent
  | [], _ => none
  | kv :: rest, k => if kv.1 = k then some kv.2 else lookupA rest k

def updA : List (FQId × FoldedEvent) → FQId → (FoldedEvent → FoldedEvent) → List (FQId × FoldedEvent)
  | [], _, _ => []
  | kv :: rest, k, f => if kv.1 = k then (kv.1, f kv.2) :: rest else kv :: updA rest k f

/-- One step of the folding loop of `validate_required_fields`.  The
Python guard `if fdict.get(event["fqid"])` tests truthiness of the
stored value, which is always a non-empty dict, so it is a presence
test.  A delete event on an existing entry only flips the type; any
other event on an existing entry merges its fields; a first event for
an fqid inserts its type and fields. -/
def foldStep (fdict : List (FQId × FoldedEvent)) (e : Event) : List (FQId × FoldedEvent) :=
  match lookupA fdict e.fqid with
  | some _ =>
    if e.type = EventType.delete then
      updA fdict e.fqid (fun fe => { fe with type := EventType.delete })
    else
      updA fdict e.fqid (fun fe => { fe with fields := updateFields fe.fields e.fields })
  | none => fdict ++ [(e.fqid, { type := e.type, fields := e.fields })]

/-- The folded per-entity view of an event sequence. -/
def foldedEvents (events : List Event) : List (FQId × FoldedEvent) :=
  events.foldl foldStep []

/-- The `required_fields` list computed per folded entity by
`validate_required_fields`, given the collection's declared required
field names (`model_registry[...]().get_required_fields()` lives in
`models/base.py`, a collaborator, so the list is a parameter). -/
def requiredList (req : List String) (ty : EventType) (fields : Fields) : List String :=
  match ty with
  | .create =>
    req.filter (fun f => !(getField fields f).isSome || ((getField fields f).isSome && !(getD fields f).truthy))
  | .update =>
    req.filter (fun f => (getField fields f).isSome && !(getD fields f).truthy)
  | .delete => []

/-- The diagnostic position string of `RequiredFieldsException`
(the delete case is unreachable: its `requiredList` is empty). -/
def requiredMsg (ty : EventType) (fqid : FQId) : String :=
  match ty with
  | .create => "Creation of " ++ fqidToString fqid
  | .update => "Update of " ++ fqidToString fqid
  | .delete => ""

/-- The checking loop of `validate_required_fields`: raise at the first
folded entity with a non-empty `required_fields` list. -/
def checkFolded (reg : String → List String) : List (FQId × FoldedEvent) → Except Err Unit
  | [] => .ok ()
  | (fqid, fe) :: rest =>
    let required_fields := requiredList (reg fqid.collection) fe.type fe.fields
    if required_fields.isEmpty then checkFolded reg rest
    else .error (.requiredFields (requiredMsg fe.type fqid) required_fields)

/-- Embeds `Action.validate_required_fields`. -/
def validate_required_fields (reg : String → List String) (write_request : WriteRequest) : Except Err Unit :=
  checkFolded reg (foldedEvents write_request.events)

/-- A relation update element (`relations/typing.py`, collaborator
output consumed by `handle_relation_updates`): a field update of type
add/remove carrying the new value, or a list update carrying add and
remove id sets. -/
inductive RelationUpdate where
  | fieldUpdate (isAdd : Bool) (value : Value)
  | listUpdate (add : List Int) (remove : List Int)
deriving DecidableEq

/-- Embeds `Action.build_write_request`.  The `fields`/`list_fields` keys are
only set for truthy values in Python; with `[]` embedding absence, the
stored value is the argument itself in every case. -/
def build_write_request (user_id : Int) (type : EventType) (fqid : FQId) (information : String)
    (fields : Fields) (list_fields : ListFields) : WriteRequest :=
  { events := [{ type := type, fqid := fqid, fields := fields, list_fields := list_fields }],
    information := [(fqid, [information])],
    user_id := user_id,
    locked_fields := [] }

/-- Embeds `Action.handle_relation_updates`: one Update event per relation
update element, targeting the referenced entity of the fully-qualified
field. -/
def handle_relation_updates (user_id : Int) (relation_updates : List (FQField × RelationUpdate)) : List WriteRequest :=
  relation_updates.map (fun p =>
    match p.2 with
    | .fieldUpdate isAdd value =>
      let info_text :=
        if isAdd then "Object attached to " ++ p.1.collection
        else "Object attachment to " ++ p.1.collection ++ " reset"
      build_write_request user_id EventType.update { collection := p.1.collection, id := p.1.id }
        info_text [(p.1.field, value)] { add := [], remove := [] }
    | .listUpdate add remove =>
      let list_fields : ListFields :=
        { add := if add.isEmpty then [] else [(p.1.field, add)],
          remove := if remove.isEmpty then [] else [(p.1.field, remove)] }
      build_write_request user_id EventType.update { collection := p.1.collection, id := p.1.id }
        "Object updated" [] list_fields)

/-- One action's configuration: the pluggable steps and collaborator
hooks of the `Action` class.  The schema validator and the permission
predicate are pure collaborator functions; the other steps thread the
shared datastore state (they may perform reads or run nested actions
through a closure). -/
structure ActionDef where
  name : String
  schema_validator : Fields → Except String Unit
  is_allowed : Int → List Fields → Bool
  get_updated_instances : List Fields → DSState → (Except Err (List Fields)) × DSState
  base_update_instance : Fields → DSState → (Except Err Fields) × DSState
  get_relation_updates : Fields → DSState → (Except Err (List (FQField × RelationUpdate))) × DSState
  create_write_requests : Int → Fields → DSState → (Except Err (List WriteRequest)) × DSState
  create_action_result_element : Fields → Option Fields
  additional_relation_models : ModelMap

/-- Embeds `Action.validate_payload_element` over the whole batch: the loop of
`perform` re-raising the first schema diagnostic as `ActionException`. -/
def validateAll (A : ActionDef) : List Fields → Except Err Unit
  | [] => .ok ()
  | element :: rest =>
    match A.schema_validator element with
    | .error msg => .error (.actionException msg)
    | .ok _ => validateAll A rest

/-- Embeds `Action.check_permissions`: consult the permission collaborator
(counted in `permCalls`) and raise `PermissionDenied` on refusal. -/
def check_permissions (A : ActionDef) (user_id : Int) (payload : List Fields) (st : DSState) : (Except Err Unit) × DSState :=
  ((if A.is_allowed user_id payload then .ok ()
    else .error (.permissionDenied ("You are not allowed to perform action " ++ A.name ++ "."))),
   { st with permCalls := st.permCalls + 1 })

/-- The per-instance loop of `Action.perform`: business update, relation
updates (through `handle_relation_updates`), the action's own write
requests, and the per-instance result element, accumulated in call
order. -/
def processInstances (A : ActionDef) (user_id : Int) : List Fields → DSState →
    (Except Err (List WriteRequest × List (Option Fields))) × DSState
  | [], st => (.ok ([], []), st)
  | instance0 :: rest, st =>
    match A.base_update_instance instance0 st with
    | (.error e, st') => (.error e, st')
    | (.ok instance1, st1) =>
      match A.get_relation_updates instance1 st1 with
      | (.error e, st') => (.error e, st')
      | (.ok relation_updates, st2) =>
        let relation_wrs := handle_relation_updates user_id relation_updates
        match A.create_write_requests user_id instance1 st2 with
        | (.error e, st') => (.error e, st')
        | (.ok own_wrs, st3) =>
          let result := A.create_action_result_element instance1
          match processInstances A user_id rest st3 with
          | (.error e, st') => (.error e, st')
          | (.ok (wrs, results), st4) => (.ok (relation_wrs ++ own_wrs ++ wrs, result :: results), st4)

/-- Embeds `Action.perform`: validate every batch element, check permissions
unless `internal`, transform the batch, process each instance, and
merge everything through `process_write_requests`. -/
def perform (A : ActionDef) (payload : List Fields) (user_id : Int) (internal : Bool) (st : DSState) :
    (Except Err (Option WriteRequest × List (Option Fields))) × DSState :=
  match validateAll A payload with
  | .error e => (.error e, st)
  | .ok _ =>
    match (if internal then ((.ok () : Except Err Unit), st) else check_permissions A user_id payload st) with
    | (.error e, st1) => (.error e, st1)
    | (.ok _, st1) =>
      match A.get_updated_instances payload st1 with
      | (.error e, st2) => (.error e, st2)
      | (.ok instances, st2) =>
        match processInstances A user_id instances st2 with
        | (.error e, st3) => (.error e, st3)
        | (.ok (write_requests, results), st3) =>
          match process_write_requests write_requests st3 with
          | (.error e, st4) => (.error e, st4)
          | (.ok final_write_request, st4) => (.ok (final_write_request, results), st4)

/-- Embeds `Action.execute_other_action`: run another action class on the
shared datastore state with the caller's user id, `internal = True`,
and the datastore's, the caller's and the supplied additional relation
models merged (in that override order).  The append of the returned
write request to the caller's accumulated list happens at the call
site, as in the source. -/
def execute_other_action (caller_models : ModelMap) (child : ActionDef) (payload : List Fields)
    (additional_relation_models : ModelMap) (user_id : Int) (st : DSState) :
    (Except Err (Option WriteRequest × List (Option Fields))) × DSState :=
  perform
    { child with additional_relation_models :=
        mergeModelMaps (mergeModelMaps st.additional_relation_models_ds caller_models) additional_relation_models }
    payload user_id true st

/-- Embeds `ListOfSpeakersDeleteAllSpeakersAction.get_updated_instances`
(pure part): fetch each referenced list of speakers with its
`speaker_ids`, and expand a truthy id list into one delete instance
per speaker. -/
def deleteAllSpeakersExpand (arm : ModelMap) : List Fields → DSState → List Fields × DSState
  | [], st => ([], st)
  | instance0 :: rest, st =>
    let fetched := fetch_model arm
      { collection := "list_of_speakers", id := valueToInt (getD instance0 "id") }
      ["speaker_ids"] st
    let expanded :=
      if (getD fetched.1 "speaker_ids").truthy then
        (valueToInts (getD fetched.1 "speaker_ids")).map (fun n => [("id", Value.vint n)])
      else []
    let tail := deleteAllSpeakersExpand arm rest fetched.2
    (expanded ++ tail.1, tail.2)

/-- The `list_of_speakers.delete_all_speakers` action as an `ActionDef`:
its `get_updated_instances` override is the embedding above; the other
steps (the generic `DeleteAction` machinery, schema, permission) are
parameters, since the claim under study is independent of them. -/
def losDeleteAllSpeakers (sv : Fields → Except String Unit) (perm : Int → List Fields → Bool)
    (bui : Fields → DSState → (Except Err Fields) × DSState)
    (grel : Fields → DSState → (Except Err (List (FQField × RelationUpdate))) × DSState)
    (cwr : Int → Fields → DSState → (Except Err (List WriteRequest)) × DSState)
    (care : Fields → Option Fields) (arm : ModelMap) : ActionDef :=
  { name := "list_of_speakers.delete_all_speakers",
    schema_validator := sv,
    is_allowed := perm,
    get_updated_instances := fun payload st =>
      let expanded := deleteAllSpeakersExpand arm payload st
      (.ok expanded.1, expanded.2),
    base_update_instance := bui,
    get_relation_updates := grel,
    create_write_requests := cwr,
    create_action_result_element := care,
    additional_relation_models := arm }

/-- Left-biased choice on options, used to phrase lookup laws. -/
def orElseO {α : Type} : Option α → Option α → Option α
  | some x, _ => some x
  | none, o => o

/-- The value of the last write of a field within one field list
(later entries win). -/
def lastVal : List (String × Value) → String → Option Value
  | [], _ => none
  | kv :: rest, f => orElseO (lastVal rest f) (if kv.1 = f then some kv.2 else none)

/-- Field lookup through an optional folded entry. -/
def getFieldO : Option FoldedEvent → String → Option Value
  | none, _ => none
  | some fe, f => getField fe.fields f

/-- The events of a sequence that target one fqid, in production order. -/
def eventsFor (fqid : FQId) (es : List Event) : List Event :=
  es.filter (fun e => decide (e.fqid = fqid))

/-- All field writes of the events targeting one fqid, concatenated in
production order. -/
def joinFieldsFor (fqid : FQId) (es : List Event) : List (String × Value) :=
  ((eventsFor fqid es).map Event.fields).flatten

/-- An action definition whose pluggable steps do not consult the
permission collaborator (every concrete action does so only through
`check_permissions` of a `perform` call). -/
def PreservesPermCalls (A : ActionDef) : Prop :=
  (∀ p st, (A.get_updated_instances p st).2.permCalls = st.permCalls) ∧
  (∀ i st, (A.base_update_instance i st).2.permCalls = st.permCalls) ∧
  (∀ i st, (A.get_relation_updates i st).2.permCalls = st.permCalls) ∧
  (∀ u i st, (A.create_write_requests u i st).2.permCalls = st.permCalls)

/-- A minimal nested action: creates one topic event, performs no reads. -/
def childCreateTopic : ActionDef :=
  { name := "topic.create",
    schema_validator := fun _ => .ok (),
    is_allowed := fun _ _ => true,
    get_updated_instances := fun payload st => (.ok payload, st),
    base_update_instance := fun i st => (.ok i, st),
    get_relation_updates := fun _ st => (.ok [], st),
    create_write_requests := fun uid _ st =>
      (.ok [build_write_request uid EventType.create { collection := "topic", id := 5 }
        "Object created" [("title", Value.vstr "t")] { add := [], remove := [] }], st),
    create_action_result_element := fun _ => none,
    additional_relation_models := [] }

/-- A parent action that performs one lock-registering read while
transforming the batch and then runs `childCreateTopic` through
`execute_other_action` inside its write-request step, appending the
nested write request as the call site in `perform` does. -/
def parentWithNested : ActionDef :=
  { name := "parent.action",
    schema_validator := fun _ => .ok (),
    is_allowed := fun _ _ => true,
    get_updated_instances := fun payload st =>
      (.ok payload,
       (fetch_model [] { collection := "list_of_speakers", id := 1 } ["speaker_ids"] st).2),
    base_update_instance := fun i st => (.ok i, st),
    get_relation_updates := fun _ st => (.ok [], st),
    create_write_requests := fun uid _ st =>
      match execute_other_action [] childCreateTopic [[]] [] uid st with
      | (.error e, st') => (.error e, st')
      | (.ok (wr, _), st') => (.ok wr.toList, st'),
    create_action_result_element := fun _ => none,
    additional_relation_models := [] }

/-- A fresh datastore state with an empty registry and an empty store. -/
def lockDemoState : DSState :=
  { locked_fields := [], store := fun _ _ => [],
    additional_relation_models_ds := [], permCalls := 0 }

/-- Demo write request used to instantiate the C1 theorem. -/
def demoFqid : FQId := { collection := "topic", id := 1 }

def demoWR : WriteRequest :=
  { events := [{ type := EventType.update, fqid := demoFqid,
                 fields := [("a", Value.vint 1)], list_fields := { add := [], remove := [] } }],
    information := [(demoFqid, ["Object updated"])],
    user_id := 7,
    locked_fields := [] }

def demoLockedState : DSState :=
  { locked_fields := [(demoFqid, ["a"])], store := fun _ _ => [],
    additional_relation_models_ds := [], permCalls := 0 }

/-- An action whose schema requires a `name` field, used to instantiate
the C4 theorem. -/
def schemaDemoAction : ActionDef :=
  { name := "tag.create",
    schema_validator := fun i =>
      if (getField i "name").isSome then .ok ()
      else .error "data must contain name property",
    is_allowed := fun _ _ => true,
    get_updated_instances := fun payload st => (.ok payload, st),
    base_update_instance := fun i st => (.ok i, st),
    get_relation_updates := fun _ st => (.ok [], st),
    create_write_requests := fun _ _ st => (.ok [], st),
    create_action_result_element := fun _ => none,
    additional_relation_models := [] }

def c5DemoWR : WriteRequest :=
  { events := [{ type := EventType.create, fqid := { collection := "topic", id := 2 },
                 fields := [("title", Value.vstr "x")],
                 list_fields := { add := [], remove := [] } }],
    information := [], user_id := 1, locked_fields := [] }

def c6DemoEvents : List Event :=
  [{ type := EventType.update, fqid := { collection := "topic", id := 3 },
     fields := [("a", Value.vint 1)], list_fields := { add := [], remove := [] } },
   { type := EventType.update, fqid := { collection := "topic", id := 3 },
     fields := [("a", Value.vint 2)], list_fields := { add := [], remove := [] } }]

/-- An action whose permission collaborator refuses everything, used to
instantiate the C7 theorem. -/
def denyAction : ActionDef :=
  { name := "topic.create",
    schema_validator := fun _ => .ok (),
    is_allowed := fun _ _ => false,
    get_updated_instances := fun payload st => (.ok payload, st),
    base_update_instance := fun i st => (.ok i, st),
    get_relation_updates := fun _ st => (.ok [], st),
    create_write_requests := fun _ _ st => (.ok [], st),
    create_action_result_element := fun _ => none,
    additional_relation_models := [] }

lemma orElseO_none_right {α : Type} (x : Option α) : orElseO x none = x := by
  cases x <;> rfl

lemma orElseO_assoc {α : Type} (x y z : Option α) :
    orElseO (orElseO x y) z = orElseO x (orElseO y z) := by
  cases x <;> rfl

lemma lastVal_append (a b : List (String × Value)) (f : String) :
    lastVal (a ++ b) f = orElseO (lastVal b f) (lastVal a f) := by
  induction a with
  | nil => simp [lastVal, orElseO_none_right]
  | cons kv rest ih => simp [lastVal, ih, orElseO_assoc]

lemma getField_setField (a : Fields) (k : String) (v : Value) (f : String) :
    getField (setField a k v) f = if k = f then some v else getField a f := by
  induction a with
  | nil =>
    by_cases h : k = f <;> simp [setField, getField, h]
  | cons kv rest ih =>
    simp only [setField]
    by_cases h1 : kv.1 = k
    · rw [if_pos h1]
      by_cases h2 : k = f
      · simp [getField, h2]
      · have h3 : ¬ kv.1 = f := by rw [h1]; exact h2
        simp [getField, h2, h3]
    · rw [if_neg h1]
      by_cases h2 : kv.1 = f
      · have h3 : ¬ k = f := fun hkf => h1 (h2.trans hkf.symm)
        simp [getField, h2, h3]
      · simp [getField, h2, ih]

lemma getField_updateFields (b a : Fields) (f : String) :
    getField (updateFields a b) f = orElseO (lastVal b f) (getField a f) := by
  induction b generalizing a with
  | nil => simp [updateFields, lastVal, orElseO]
  | cons kv rest ih =>
    have hstep : updateFields a (kv :: rest) = updateFields (setField a kv.1 kv.2) rest := by
      simp [updateFields]
    rw [hstep, ih, getField_setField]
    simp only [lastVal, orElseO_assoc]
    by_cases h : kv.1 = f <;> simp [h, orElseO]

lemma lastVal_eq_none (ps : List (String × Value)) (f : String) (h : f ∉ ps.map Prod.fst) :
    lastVal ps f = none := by
  induction ps with
  | nil => rfl
  | cons kv rest ih =>
    simp only [List.map, List.mem_cons, not_or] at h
    have h2 : kv.1 ≠ f := fun h3 => h.1 h3.symm
    simp [lastVal, ih h.2, h2, orElseO]

lemma getField_eq_lastVal (ps : List (String × Value)) (f : String)
    (h : (ps.map Prod.fst).Nodup) : getField ps f = lastVal ps f := by
  induction ps with
  | nil => rfl
  | cons kv rest ih =>
    simp only [List.map, List.nodup_cons] at h
    by_cases h2 : kv.1 = f
    · have h3 : lastVal rest f = none := lastVal_eq_none rest f (h2 ▸ h.1)
      simp [getField, lastVal, h2, h3, orElseO]
    · simp [getField, lastVal, h2, ih h.2, orElseO_none_right]

lemma lookupA_updA_self (l : List (FQId × FoldedEvent)) (k : FQId) (f : FoldedEvent → FoldedEvent) :
    lookupA (updA l k f) k = (lookupA l k).map f := by
  induction l with
  | nil => rfl
  | cons kv rest ih =>
    by_cases h : kv.1 = k <;> simp [updA, lookupA, h, ih]

lemma lookupA_updA_ne (l : List (FQId × FoldedEvent)) (k : FQId) (f : FoldedEvent → FoldedEvent)
    (k' : FQId) (h : k' ≠ k) : lookupA (updA l k f) k' = lookupA l k' := by
  induction l with
  | nil => rfl
  | cons kv rest ih =>
    by_cases h1 : kv.1 = k
    · have h2 : ¬ kv.1 = k' := fun h3 => h (by rw [← h3, h1])
      have h3 : ¬ k = k' := fun hh => h hh.symm
      simp [updA, lookupA, h1, h2, h3]
    · simp [updA, lookupA, h1, ih]

lemma lookupA_append (l : List (FQId × FoldedEvent)) (k : FQId) (v : FoldedEvent) (k' : FQId) :
    lookupA (l ++ [(k, v)]) k' = orElseO (lookupA l k') (if k' = k then some v else none) := by
  induction l with
  | nil =>
    by_cases h : k = k'
    · simp [lookupA, orElseO, h]
    · have h2 : ¬ k' = k := fun h3 => h h3.symm
      simp [lookupA, orElseO, h, h2]
  | cons kv rest ih =>
    by_cases h : kv.1 = k' <;> simp [lookupA, h, ih, orElseO]

lemma lookupA_foldStep_ne (acc : List (FQId × FoldedEvent)) (e : Event) (fqid : FQId)
    (h : e.fqid ≠ fqid) : lookupA (foldStep acc e) fqid = lookupA acc fqid := by
  unfold foldStep
  have h' : fqid ≠ e.fqid := fun h2 => h h2.symm
  cases hl : lookupA acc e.fqid with
  | some fe =>
    by_cases ht : e.type = EventType.delete <;> simp [ht, lookupA_updA_ne _ _ _ _ h']
  | none =>
    simp [lookupA_append, h', orElseO_none_right]

lemma lookupA_foldStep_self (acc : List (FQId × FoldedEvent)) (e : Event) :
    lookupA (foldStep acc e) e.fqid =
      some (match lookupA acc e.fqid with
            | none => { type := e.type, fields := e.fields }
            | some fe =>
              if e.type = EventType.delete then { type := EventType.delete, fields := fe.fields }
              else { type := fe.type, fields := updateFields fe.fields e.fields }) := by
  unfold foldStep
  cases hl : lookupA acc e.fqid with
  | some fe =>
    by_cases ht : e.type = EventType.delete <;> simp [ht, lookupA_updA_self, hl]
  | none =>
    simp [lookupA_append, hl, orElseO]

lemma sortFold (es : List Event) : ∀ a b c : List Event,
    es.foldl sortStep (a, b, c) =
      (a ++ es.filter isCreate, b ++ es.filter isUpdate, c ++ es.filter isDelete) := by
  induction es with
  | nil => intro a b c; simp
  | cons e es ih =>
    intro a b c
    rw [List.foldl_cons]
    cases he : e.type <;>
      simp [sortStep, he, ih, isCreate, isUpdate, isDelete, List.filter_cons]

/-- The event sort is the stable three-way partition by event type. -/
lemma sortEventsByType_eq (events : List Event) :
    sortEventsByType events =
      events.filter isCreate ++ events.filter isUpdate ++ events.filter isDelete := by
  show (events.foldl sortStep ([], [], [])).1 ++ _ ++ _ = _
  rw [sortFold events [] [] []]
  simp

/-- Delete dominance of the folding loop: once any event for an fqid is
a Delete, the folded entry for that fqid has type Delete. -/
lemma foldl_delete_dominance (es : List Event) : ∀ (acc : List (FQId × FoldedEvent)) (fqid : FQId),
    ((∃ fe, lookupA acc fqid = some fe ∧ fe.type = EventType.delete) ∨
     (∃ e ∈ es, e.fqid = fqid ∧ e.type = EventType.delete)) →
    ∃ fe, lookupA (es.foldl foldStep acc) fqid = some fe ∧ fe.type = EventType.delete := by
  induction es with
  | nil =>
    intro acc fqid h
    rcases h with h | ⟨e, he, _⟩
    · exact h
    · simp at he
  | cons e es ih =>
    intro acc fqid h
    rw [List.foldl_cons]
    apply ih
    by_cases hf : e.fqid = fqid
    · subst hf
      have hself := lookupA_foldStep_self acc e
      rcases h with ⟨fe, hl, hd⟩ | ⟨e', he', hfq, hty⟩
      · left
        simp only [hl] at hself
        by_cases ht : e.type = EventType.delete
        · rw [if_pos ht] at hself
          exact ⟨_, hself, rfl⟩
        · rw [if_neg ht] at hself
          exact ⟨_, hself, hd⟩
      · rcases List.mem_cons.mp he' with rfl | hmem
        · left
          cases hl : lookupA acc e'.fqid with
          | none =>
            simp only [hl] at hself
            exact ⟨_, hself, hty⟩
          | some fe =>
            simp only [hl] at hself
            rw [if_pos hty] at hself
            exact ⟨_, hself, rfl⟩
        · right
          exact ⟨e', hmem, hfq, hty⟩
    · rcases h with ⟨fe, hl, hd⟩ | ⟨e', he', hfq, hty⟩
      · left
        exact ⟨fe, (lookupA_foldStep_ne acc e fqid hf).trans hl, hd⟩
      · rcases List.mem_cons.mp he' with rfl | hmem
        · exact absurd hfq hf
        · right
          exact ⟨e', hmem, hfq, hty⟩

/-- Field accumulation of the folding loop: provided delete events carry
no fields and each event's field dict has unique keys (always true of
dicts), the folded fields of an entity answer every lookup with the
last value written for that field across the entity's events. -/
lemma foldl_fields (es : List Event) : ∀ (acc : List (FQId × FoldedEvent)) (fqid : FQId) (f : String),
    (∀ e ∈ es, e.type = EventType.delete → e.fields = []) →
    (∀ e ∈ es, ((e.fields.map Prod.fst).Nodup)) →
    getFieldO (lookupA (es.foldl foldStep acc) fqid) f =
      orElseO (lastVal (joinFieldsFor fqid es) f) (getFieldO (lookupA acc fqid) f) := by
  induction es with
  | nil =>
    intro acc fqid f _ _
    simp [joinFieldsFor, eventsFor, lastVal, orElseO]
  | cons e es ih =>
    intro acc fqid f hdel hnd
    rw [List.foldl_cons,
      ih (foldStep acc e) fqid f (fun x hx => hdel x (List.mem_cons_of_mem _ hx))
        (fun x hx => hnd x (List.mem_cons_of_mem _ hx))]
    by_cases hf : e.fqid = fqid
    · subst hf
      have hjoin : joinFieldsFor e.fqid (e :: es) = e.fields ++ joinFieldsFor e.fqid es := by
        simp [joinFieldsFor, eventsFor, List.filter_cons]
      rw [hjoin, lastVal_append, orElseO_assoc]
      have hstep : getFieldO (lookupA (foldStep acc e) e.fqid) f =
          orElseO (lastVal e.fields f) (getFieldO (lookupA acc e.fqid) f) := by
        have hself := lookupA_foldStep_self acc e
        cases hl : lookupA acc e.fqid with
        | none =>
          simp only [hl] at hself
          rw [hself]
          simp only [getFieldO, orElseO_none_right]
          exact getField_eq_lastVal _ _ (hnd e (List.mem_cons_self _ _))
        | some fe =>
          simp only [hl] at hself
          by_cases ht : e.type = EventType.delete
          · rw [if_pos ht] at hself
            rw [hself]
            have he0 : e.fields = [] := hdel e (List.mem_cons_self _ _) ht
            simp [getFieldO, he0, lastVal, orElseO]
          · rw [if_neg ht] at hself
            rw [hself]
            simp only [getFieldO]
            exact getField_updateFields _ _ _
      rw [hstep]
    · have hjoin : joinFieldsFor fqid (e :: es) = joinFieldsFor fqid es := by
        simp [joinFieldsFor, eventsFor, List.filter_cons, hf]
      rw [hjoin, lookupA_foldStep_ne acc e fqid hf]

/-- The merge loop accumulates the events of all inputs in order. -/
lemma mergeLoop_events (els : List WriteRequest) :
    ∀ (evts : List Event) (info : List (FQId × List String)) (user : Option Int) res,
    mergeLoop els evts info user = .ok res →
    res.1 = evts ++ (els.map WriteRequest.events).flatten := by
  induction els with
  | nil =>
    intro evts info user res h
    simp only [mergeLoop] at h
    cases h
    simp
  | cons el rest ih =>
    intro evts info user res h
    cases user with
    | none =>
      simp only [mergeLoop] at h
      have := ih _ _ _ _ h
      simpa using this
    | some u =>
      simp only [mergeLoop] at h
      by_cases hu : u = el.user_id
      · rw [if_pos hu] at h
        have := ih _ _ _ _ h
        simpa using this
      · rw [if_neg hu] at h
        cases h

/-- When some input disagrees with the user accumulator, the merge loop
raises the cross-user `ValueError`. -/
lemma mergeLoop_mismatch (els : List WriteRequest) :
    ∀ (evts : List Event) (info : List (FQId × List String)) (u : Int),
    (∃ e ∈ els, e.user_id ≠ u) →
    mergeLoop els evts info (some u) =
      .error (.valueError "You can not merge two write request elements of different users.") := by
  induction els with
  | nil =>
    intro evts info u h
    rcases h with ⟨e, he, _⟩
    simp at he
  | cons el rest ih =>
    intro evts info u h
    simp only [mergeLoop]
    by_cases hu : u = el.user_id
    · rw [if_pos hu]
      apply ih
      rcases h with ⟨e, he, hne⟩
      rcases List.mem_cons.mp he with rfl | hmem
      · exact absurd hu.symm hne
      · exact ⟨e, hmem, hne⟩
    · rw [if_neg hu]

/-- When every input carries user `u` and no events, the merge loop
returns the event accumulator unchanged. -/
lemma mergeLoop_empty_events (els : List WriteRequest) :
    ∀ (evts : List Event) (info : List (FQId × List String)) (user : Option Int) (u : Int),
    (∀ a ∈ els, a.events = []) → (∀ a ∈ els, a.user_id = u) →
    (user = none ∨ user = some u) →
    ∃ info' user', mergeLoop els evts info user = .ok (evts, info', user') := by
  induction els with
  | nil =>
    intro evts info user u _ _ _
    exact ⟨info, user, rfl⟩
  | cons el rest ih =>
    intro evts info user u hev hus huser
    have hel : el.events = [] := hev el (List.mem_cons_self _ _)
    have helu : el.user_id = u := hus el (List.mem_cons_self _ _)
    have hevr : ∀ a ∈ rest, a.events = [] := fun a ha => hev a (List.mem_cons_of_mem _ ha)
    have husr : ∀ a ∈ rest, a.user_id = u := fun a ha => hus a (List.mem_cons_of_mem _ ha)
    rcases huser with rfl | rfl
    · simp only [mergeLoop, hel, List.append_nil]
      exact ih _ _ _ u hevr husr (Or.inr (by rw [helu]))
    · simp only [mergeLoop, hel, List.append_nil]
      rw [if_pos helu.symm]
      exact ih _ _ _ u hevr husr (Or.inr rfl)

/-- Characterization of a successful, non-trivial merge: the events are
the concatenation of all inputs' events (non-empty), and the fresh
write request starts with an empty lock set. -/
lemma merge_ok_some (wrs : List WriteRequest) (wr : WriteRequest)
    (h : merge_write_requests wrs = .ok (some wr)) :
    wr.events = (wrs.map WriteRequest.events).flatten ∧ wr.events ≠ [] ∧ wr.locked_fields = [] := by
  unfold merge_write_requests at h
  cases hm : mergeLoop wrs [] [] none with
  | error e => rw [hm] at h; cases h
  | ok res =>
    rw [hm] at h
    obtain ⟨events, information, user⟩ := res
    have hev := mergeLoop_events wrs [] [] none _ hm
    simp only at hev
    by_cases he : events.isEmpty
    · simp only [he, if_pos] at h
      cases h
    · simp only [he] at h
      rw [if_neg (by simp [he])] at h
      cases user with
      | none => cases h
      | some u =>
        cases h
        refine ⟨by simpa using hev, ?_, rfl⟩
        simpa [List.isEmpty_iff] using he

/-- Characterization of a successful, non-trivial
`process_write_requests`: it is the merge result with sorted events,
the locked-fields registry snapshot attached, and the registry reset. -/
lemma process_ok_some (wrs : List WriteRequest) (st : DSState) (wr : WriteRequest) (st' : DSState)
    (h : process_write_requests wrs st = (.ok (some wr), st')) :
    ∃ wr0, merge_write_requests wrs = .ok (some wr0) ∧
      wr = { wr0 with events := sortEventsByType wr0.events, locked_fields := st.locked_fields } ∧
      st' = { st with locked_fields := [] } := by
  unfold process_write_requests at h
  cases hm : merge_write_requests wrs with
  | error e => rw [hm] at h; simp at h
  | ok wro =>
    rw [hm] at h
    cases wro with
    | none => simp at h
    | some wr0 =>
      simp only [Prod.mk.injEq, Except.ok.injEq, Option.some.injEq] at h
      exact ⟨wr0, rfl, h.1.symm, h.2.symm⟩

/-- Lemma: `process_write_requests` never touches the permission counter. -/
lemma process_permCalls (wrs : List WriteRequest) (st : DSState) :
    ((process_write_requests wrs st).2).permCalls = st.permCalls := by
  unfold process_write_requests
  split <;> rfl

lemma processInstances_permCalls (A : ActionDef) (hA : PreservesPermCalls A) (uid : Int) :
    ∀ (l : List Fields) (st : DSState), ((processInstances A uid l st).2).permCalls = st.permCalls := by
  intro l
  induction l with
  | nil => intro st; rfl
  | cons i rest ih =>
    intro st
    simp only [processInstances]
    split
    next e st1 heq1 =>
      have h1 := hA.2.1 i st
      rw [heq1] at h1
      exact h1
    next inst1 st1 heq1 =>
      have h1 := hA.2.1 i st
      rw [heq1] at h1
      split
      next e st2 heq2 =>
        have h2 := hA.2.2.1 inst1 st1
        rw [heq2] at h2
        exact h2.trans h1
      next rel st2 heq2 =>
        have h2 := hA.2.2.1 inst1 st1
        rw [heq2] at h2
        split
        next e st3 heq3 =>
          have h3 := hA.2.2.2 uid inst1 st2
          rw [heq3] at h3
          exact (h3.trans h2).trans h1
        next own st3 heq3 =>
          have h3 := hA.2.2.2 uid inst1 st2
          rw [heq3] at h3
          split
          next e st4 heq4 =>
            have h4 := ih st3
            rw [heq4] at h4
            exact ((h4.trans h3).trans h2).trans h1
          next wrs results st4 heq4 =>
            have h4 := ih st3
            rw [heq4] at h4
            exact ((h4.trans h3).trans h2).trans h1

lemma validateAll_ok (A : ActionDef) (payload : List Fields)
    (h : ∀ e ∈ payload, A.schema_validator e = .ok ()) : validateAll A payload = .ok () := by
  induction payload with
  | nil => rfl
  | cons e rest ih =>
    have he := h e (List.mem_cons_self _ _)
    simp only [validateAll, he]
    exact ih (fun x hx => h x (List.mem_cons_of_mem _ hx))

lemma validateAll_first_error (A : ActionDef) (pre : List Fields) (e : Fields) (rest : List Fields)
    (msg : String) (hpre : ∀ x ∈ pre, A.schema_validator x = .ok ())
    (he : A.schema_validator e = .error msg) :
    validateAll A (pre ++ e :: rest) = .error (.actionException msg) := by
  induction pre with
  | nil => simp [validateAll, he]
  | cons p pre' ih =>
    have hp := hpre p (List.mem_cons_self _ _)
    simp only [List.cons_append, validateAll, hp]
    exact ih (fun x hx => hpre x (List.mem_cons_of_mem _ hx))

/-- Any successful `perform` that returns a write request leaves the
shared locked-fields registry empty. -/
lemma perform_ok_some_state (A : ActionDef) (payload : List Fields) (uid : Int) (internal : Bool)
    (st : DSState) (wr : WriteRequest) (res : List (Option Fields)) (st' : DSState)
    (h : perform A payload uid internal st = (.ok (some wr, res), st')) :
    st'.locked_fields = [] := by
  unfold perform at h
  split at h
  · simp at h
  · split at h
    · simp at h
    · split at h
      · simp at h
      · split at h
        · simp at h
        · split at h
          · simp at h
          next final st4 heq =>
            simp only [Prod.mk.injEq, Except.ok.injEq] at h
            obtain ⟨⟨hfinal, -⟩, hst⟩ := h
            subst hfinal
            rcases process_ok_some _ _ _ _ heq with ⟨wr0, -, -, hst4⟩
            rw [← hst, hst4]

/-- An internal `perform` of a permission-preserving action never
touches the permission counter. -/
lemma perform_permCalls_internal (A : ActionDef) (hA : PreservesPermCalls A)
    (payload : List Fields) (uid : Int) (st : DSState)
    (r : Except Err (Option WriteRequest × List (Option Fields))) (st' : DSState)
    (h : perform A payload uid true st = (r, st')) : st'.permCalls = st.permCalls := by
  unfold perform at h
  split at h
  · cases h; rfl
  · simp only [if_true] at h
    split at h
    next e st2 heq2 =>
      have h2 := hA.1 payload st
      rw [heq2] at h2
      cases h
      exact h2
    next instances st2 heq2 =>
      have h2 := hA.1 payload st
      rw [heq2] at h2
      split at h
      next e st3 heq3 =>
        have h3 := processInstances_permCalls A hA uid instances st2
        rw [heq3] at h3
        cases h
        exact h3.trans h2
      next wrs results st3 heq3 =>
        have h3 := processInstances_permCalls A hA uid instances st2
        rw [heq3] at h3
        split at h
        next e st4 heq4 =>
          have h4 := process_permCalls wrs st3
          rw [heq4] at h4
          cases h
          exact (h4.trans h3).trans h2
        next final st4 heq4 =>
          have h4 := process_permCalls wrs st3
          rw [heq4] at h4
          cases h
          exact (h4.trans h3).trans h2

lemma checkFolded_ok_iff (reg : String → List String) (l : List (FQId × FoldedEvent)) :
    checkFolded reg l = .ok () ↔
      ∀ p ∈ l, requiredList (reg p.1.collection) p.2.type p.2.fields = [] := by
  induction l with
  | nil => simp [checkFolded]
  | cons p rest ih =>
    obtain ⟨fqid, fe⟩ := p
    simp only [checkFolded]
    by_cases h : (requiredList (reg fqid.collection) fe.type fe.fields).isEmpty
    · rw [if_pos h]
      have hh : requiredList (reg fqid.collection) fe.type fe.fields = [] := by
        simpa [List.isEmpty_iff] using h
      simp [ih, List.forall_mem_cons, hh]
    · rw [if_neg h]
      constructor
      · intro hcontra; cases hcontra
      · intro hall
        exact absurd (hall (fqid, fe) (List.mem_cons_self _ _))
          (by simpa [List.isEmpty_iff] using h)

lemma checkFolded_error (reg : String → List String) (l : List (FQId × FoldedEvent)) (e : Err)
    (h : checkFolded reg l = .error e) :
    ∃ p ∈ l, requiredList (reg p.1.collection) p.2.type p.2.fields ≠ [] ∧
      e = .requiredFields (requiredMsg p.2.type p.1)
        (requiredList (reg p.1.collection) p.2.type p.2.fields) := by
  induction l with
  | nil => simp [checkFolded] at h
  | cons p rest ih =>
    obtain ⟨fqid, fe⟩ := p
    simp only [checkFolded] at h
    by_cases hr : (requiredList (reg fqid.collection) fe.type fe.fields).isEmpty
    · rw [if_pos hr] at h
      rcases ih h with ⟨q, hq, hne, he⟩
      exact ⟨q, List.mem_cons_of_mem _ hq, hne, he⟩
    · rw [if_neg hr] at h
      injection h with h
      exact ⟨(fqid, fe), List.mem_cons_self _ _,
        by simpa [List.isEmpty_iff] using hr, h.symm⟩

lemma requiredList_mem (req : List String) (ty : EventType) (fields : Fields) (f : String) :
    f ∈ requiredList req ty fields ↔
      f ∈ req ∧
        ((ty = EventType.create ∧ ¬ ∃ v, getField fields f = some v ∧ v.truthy = true) ∨
         (ty = EventType.update ∧ ∃ v, getField fields f = some v ∧ v.truthy = false)) := by
  cases ty with
  | create =>
    simp only [requiredList, List.mem_filter]
    cases hg : getField fields f with
    | none => simp [hg, getD]
    | some v => simp [hg, getD]
  | update =>
    simp only [requiredList, List.mem_filter]
    cases hg : getField fields f with
    | none => simp [hg, getD]
    | some v => simp [hg, getD]
  | delete => simp [requiredList]

/-- C1, counterexample: a top-level `perform` whose only lock-registering
read happens before a nested action produces events.  The nested
`perform` already drains the registry at its own Merging step (a second
drain within the top-level call), and `merge_write_requests` drops the
locked fields of its inputs, so the final write request's `locked_fields`
is empty instead of the full transitive read-set
`[(list_of_speakers/1, ["speaker_ids"])]` of the call tree. -/
theorem claim_C1_counterexample :
    (perform parentWithNested [[]] 7 false lockDemoState).1 =
      .ok (some { events := [{ type := EventType.create,
                               fqid := { collection := "topic", id := 5 },
                               fields := [("title", Value.vstr "t")],
                               list_fields := { add := [], remove := [] } }],
                  information := [({ collection := "topic", id := 5 }, ["Object created"])],
                  user_id := 7,
                  locked_fields := [] },
            [none]) ∧
    ((fetch_model [] { collection := "list_of_speakers", id := 1 } ["speaker_ids"] lockDemoState).2).locked_fields =
      [({ collection := "list_of_speakers", id := 1 }, ["speaker_ids"])] ∧
    ([] : List LockEntry) ≠ [({ collection := "list_of_speakers", id := 1 }, ["speaker_ids"])] := by
  refine ⟨rfl, rfl, ?_⟩
  decide

/-- C1, amended: the locked-fields registry is read and reset at the
Merging step of every `perform` call that merges to a non-None write
request — nested calls included, since `execute_other_action` runs a
full `perform` on the shared datastore state.  The write request
returned by a merging step carries exactly the registry contents at
that step (so the top-level lock set excludes reads already drained by
a nested non-None `perform`, whose snapshot is discarded by the merge),
and the registry is left empty afterwards. -/
theorem claim_C1_amended :
    (∀ (wrs : List WriteRequest) (st : DSState) (wr : WriteRequest),
      merge_write_requests wrs = .ok (some wr) →
      process_write_requests wrs st =
        (.ok (some { wr with events := sortEventsByType wr.events,
                             locked_fields := st.locked_fields }),
         { st with locked_fields := [] })) ∧
    (∀ (wrs : List WriteRequest) (st : DSState),
      merge_write_requests wrs = .ok none →
      process_write_requests wrs st = (.ok none, st)) ∧
    (∀ (caller_models : ModelMap) (child : ActionDef) (payload : List Fields)
       (extra : ModelMap) (uid : Int) (st : DSState) (wr : WriteRequest)
       (res : List (Option Fields)) (st' : DSState),
      execute_other_action caller_models child payload extra uid st = (.ok (some wr, res), st') →
      st'.locked_fields = []) := by
  refine ⟨?_, ?_, ?_⟩
  · intro wrs st wr h
    unfold process_write_requests
    rw [h]
  · intro wrs st h
    unfold process_write_requests
    rw [h]
  · intro caller_models child payload extra uid st wr res st' h
    exact perform_ok_some_state _ _ _ _ _ _ _ _ h

theorem claim_C1_witness :
    process_write_requests [demoWR] demoLockedState =
      (.ok (some { demoWR with events := sortEventsByType demoWR.events,
                               locked_fields := demoLockedState.locked_fields }),
       { demoLockedState with locked_fields := [] }) :=
  claim_C1_amended.1 [demoWR] demoLockedState demoWR rfl

lemma filters_ne_nil (es : List Event) (h : es ≠ []) :
    es.filter isCreate ++ es.filter isUpdate ++ es.filter isDelete ≠ [] := by
  intro hc
  rcases List.append_eq_nil.mp hc with ⟨hc1, hdel⟩
  rcases List.append_eq_nil.mp hc1 with ⟨hcr, hup⟩
  obtain ⟨e, he⟩ := List.exists_mem_of_ne_nil es h
  cases ht : e.type with
  | create =>
    have hm : e ∈ es.filter isCreate := List.mem_filter.mpr ⟨he, by simp [isCreate, ht]⟩
    rw [hcr] at hm
    simp at hm
  | update =>
    have hm : e ∈ es.filter isUpdate := List.mem_filter.mpr ⟨he, by simp [isUpdate, ht]⟩
    rw [hup] at hm
    simp at hm
  | delete =>
    have hm : e ∈ es.filter isDelete := List.mem_filter.mpr ⟨he, by simp [isDelete, ht]⟩
    rw [hdel] at hm
    simp at hm

/-- C2: every non-None write request returned by
`process_write_requests` is non-empty and carries the produced events
(the concatenation of all accumulated write requests' events, in
production order) partitioned stably as all Creates, then all Updates,
then all Deletes. -/
theorem claim_C2 (wrs : List WriteRequest) (st : DSState) (wr : WriteRequest) (st' : DSState)
    (h : process_write_requests wrs st = (.ok (some wr), st')) :
    wr.events =
      ((wrs.map WriteRequest.events).flatten.filter isCreate ++
       (wrs.map WriteRequest.events).flatten.filter isUpdate ++
       (wrs.map WriteRequest.events).flatten.filter isDelete) ∧
    wr.events ≠ [] := by
  rcases process_ok_some wrs st wr st' h with ⟨wr0, hm, hwr, -⟩
  rcases merge_ok_some wrs wr0 hm with ⟨hev, hne, -⟩
  have hsort : wr.events = sortEventsByType wr0.events := by rw [hwr]
  rw [hsort, sortEventsByType_eq, hev]
  refine ⟨rfl, ?_⟩
  exact filters_ne_nil _ (by rw [← hev]; exact hne)

theorem claim_C2_witness :
    sortEventsByType demoWR.events =
      ((([demoWR].map WriteRequest.events).flatten.filter isCreate ++
        ([demoWR].map WriteRequest.events).flatten.filter isUpdate ++
        ([demoWR].map WriteRequest.events).flatten.filter isDelete)) ∧
    sortEventsByType demoWR.events ≠ [] :=
  claim_C2 [demoWR] demoLockedState
    { demoWR with events := sortEventsByType demoWR.events,
                  locked_fields := demoLockedState.locked_fields }
    { demoLockedState with locked_fields := [] } rfl

/-- C3, counterexample: a list whose elements contain zero events in
total but carry two different acting users does not return none — the
loop raises the cross-user `ValueError` first. -/
theorem claim_C3_counterexample :
    merge_write_requests
      [{ events := [], information := [], user_id := 1, locked_fields := [] },
       { events := [], information := [], user_id := 2, locked_fields := [] }] =
      .error (.valueError "You can not merge two write request elements of different users.") := by
  rfl

/-- C3, amended: a list with two different acting users always fails
with the `ValueError`-class internal-invariant error; the empty list
returns none; and a list of one consistent acting user whose elements
contain zero events in total returns none (rather than an empty
transaction) — zero-event lists with mismatched users fail instead. -/
theorem claim_C3_amended :
    (∀ wrs : List WriteRequest,
      (∃ a ∈ wrs, ∃ b ∈ wrs, a.user_id ≠ b.user_id) →
      merge_write_requests wrs =
        .error (.valueError "You can not merge two write request elements of different users.")) ∧
    merge_write_requests [] = .ok none ∧
    (∀ wrs : List WriteRequest,
      (∀ a ∈ wrs, ∀ b ∈ wrs, a.user_id = b.user_id) →
      (∀ a ∈ wrs, a.events = []) →
      merge_write_requests wrs = .ok none) := by
  refine ⟨?_, rfl, ?_⟩
  · intro wrs h
    rcases h with ⟨a, ha, b, hb, hab⟩
    cases wrs with
    | nil => simp at ha
    | cons w rest =>
      have hrest : ∃ e ∈ rest, e.user_id ≠ w.user_id := by
        by_cases haw : a.user_id = w.user_id
        · have hbw : b.user_id ≠ w.user_id := fun hbw => hab (haw.trans hbw.symm)
          rcases List.mem_cons.mp hb with rfl | hbm
          · exact absurd rfl hbw
          · exact ⟨b, hbm, hbw⟩
        · rcases List.mem_cons.mp ha with rfl | ham
          · exact absurd rfl haw
          · exact ⟨a, ham, haw⟩
      unfold merge_write_requests
      rw [show mergeLoop (w :: rest) [] [] none =
            mergeLoop rest ([] ++ w.events) (mergeInfos [] w.information) (some w.user_id) from rfl,
        mergeLoop_mismatch rest _ _ w.user_id hrest]
  · intro wrs hsame hempty
    cases wrs with
    | nil => rfl
    | cons w rest =>
      rcases mergeLoop_empty_events (w :: rest) [] [] none w.user_id hempty
        (fun a ha => hsame a ha w (List.mem_cons_self _ _)) (Or.inl rfl) with ⟨info', user', hloop⟩
      unfold merge_write_requests
      rw [hloop]
      rfl

theorem claim_C3_witness :
    merge_write_requests
      [{ events := [], information := [], user_id := 4, locked_fields := [] },
       { events := [], information := [], user_id := 4, locked_fields := [] }] = .ok none :=
  claim_C3_amended.2.2
    [{ events := [], information := [], user_id := 4, locked_fields := [] },
     { events := [], information := [], user_id := 4, locked_fields := [] }]
    (by decide) (by decide)

/-- C4: when some batch element violates the action's compiled schema,
`perform` fails with the schema-violation error (`ActionException`
carrying the schema diagnostic of the first failing element), with the
datastore state untouched — regardless of the `internal` flag, of the
permission collaborator's answer and of every later pipeline step, so
validation precedes every other fallible step and has no side effects. -/
theorem claim_C4 (A : ActionDef) (pre : List Fields) (e : Fields) (rest : List Fields)
    (msg : String) (uid : Int) (internal : Bool) (st : DSState)
    (hpre : ∀ x ∈ pre, A.schema_validator x = .ok ())
    (he : A.schema_validator e = .error msg) :
    perform A (pre ++ e :: rest) uid internal st = (.error (.actionException msg), st) := by
  unfold perform
  rw [validateAll_first_error A pre e rest msg hpre he]

theorem claim_C4_witness :
    perform schemaDemoAction ([[("name", Value.vstr "x")]] ++ [] :: []) 1 false lockDemoState =
      (.error (.actionException "data must contain name property"), lockDemoState) :=
  claim_C4 schemaDemoAction [[("name", Value.vstr "x")]] [] [] "data must contain name property"
    1 false lockDemoState
    (by intro x hx; rcases List.mem_singleton.mp hx with rfl; rfl) rfl

/-- C5: `validate_required_fields` flags, per folded Create, exactly
the declared-required fields that are absent or carry a falsy value,
and per folded Update exactly the required fields present with a falsy
value (absent fields never contribute); it succeeds iff no folded
entity has such fields, and any raised `RequiredFieldsException` names
exactly the flagged fields of an offending folded entity. -/
theorem claim_C5 (reg : String → List String) (wr : WriteRequest) :
    (∀ (req : List String) (ty : EventType) (fields : Fields) (f : String),
      f ∈ requiredList req ty fields ↔
        f ∈ req ∧
          ((ty = EventType.create ∧ ¬ ∃ v, getField fields f = some v ∧ v.truthy = true) ∨
           (ty = EventType.update ∧ ∃ v, getField fields f = some v ∧ v.truthy = false))) ∧
    (validate_required_fields reg wr = .ok () ↔
      ∀ p ∈ foldedEvents wr.events,
        requiredList (reg p.1.collection) p.2.type p.2.fields = []) ∧
    (∀ e, validate_required_fields reg wr = .error e →
      ∃ p ∈ foldedEvents wr.events,
        requiredList (reg p.1.collection) p.2.type p.2.fields ≠ [] ∧
          e = .requiredFields (requiredMsg p.2.type p.1)
            (requiredList (reg p.1.collection) p.2.type p.2.fields)) := by
  refine ⟨requiredList_mem, ?_, ?_⟩
  · unfold validate_required_fields
    exact checkFolded_ok_iff reg (foldedEvents wr.events)
  · intro e h
    unfold validate_required_fields at h
    exact checkFolded_error reg (foldedEvents wr.events) e h

theorem claim_C5_witness :
    validate_required_fields (fun _ => ["title"]) c5DemoWR = .ok () :=
  (claim_C5 (fun _ => ["title"]) c5DemoWR).2.1.mpr (by decide)

/-- C6: in the folded per-entity view, any Delete event for an entity
makes the folded kind Delete; field changes accumulate with later
values overwriting earlier ones (each field answers with the last value
written across the entity's events, given that delete events carry no
fields and event field dicts have unique keys, as dicts do); and a
Delete-folded entity contributes no required-field obligations. -/
theorem claim_C6 (es : List Event) (fqid : FQId) :
    ((∃ e ∈ es, e.fqid = fqid ∧ e.type = EventType.delete) →
      ∃ fe, lookupA (foldedEvents es) fqid = some fe ∧ fe.type = EventType.delete) ∧
    ((∀ e ∈ es, e.type = EventType.delete → e.fields = []) →
     (∀ e ∈ es, (e.fields.map Prod.fst).Nodup) →
      ∀ fe, lookupA (foldedEvents es) fqid = some fe →
        ∀ f, getField fe.fields f = lastVal (joinFieldsFor fqid es) f) ∧
    (∀ (fe : FoldedEvent) (req : List String), lookupA (foldedEvents es) fqid = some fe →
      fe.type = EventType.delete → requiredList req fe.type fe.fields = []) := by
  refine ⟨?_, ?_, ?_⟩
  · intro h
    exact foldl_delete_dominance es [] fqid (Or.inr h)
  · intro hdel hnd fe hl f
    have h2 : getFieldO (lookupA (foldedEvents es) fqid) f = lastVal (joinFieldsFor fqid es) f := by
      have h3 := foldl_fields es [] fqid f hdel hnd
      simpa [foldedEvents, getFieldO, lookupA, orElseO_none_right] using h3
    rw [hl] at h2
    simpa [getFieldO] using h2
  · intro fe req hl ht
    rw [ht]
    rfl

theorem claim_C6_witness :
    getField [("a", Value.vint 2)] "a" =
      lastVal (joinFieldsFor { collection := "topic", id := 3 } c6DemoEvents) "a" :=
  (claim_C6 c6DemoEvents { collection := "topic", id := 3 }).2.1
    (by decide) (by decide)
    { type := EventType.update, fields := [("a", Value.vint 2)] } rfl "a"

/-- C7: an internal `perform` never consults the permission
collaborator (the consultation counter is unchanged for any action
whose own steps do not consult it), while a non-internal `perform`
whose permission check refuses fails with `PermissionDenied` right
after the one consultation, with the datastore state otherwise
untouched — before any instance is transformed or processed, so no
write request is produced for the batch. -/
theorem claim_C7 (A : ActionDef) (payload : List Fields) (uid : Int) (st : DSState) :
    (PreservesPermCalls A →
      ∀ r st', perform A payload uid true st = (r, st') → st'.permCalls = st.permCalls) ∧
    ((∀ e ∈ payload, A.schema_validator e = .ok ()) →
      A.is_allowed uid payload = false →
      perform A payload uid false st =
        (.error (.permissionDenied ("You are not allowed to perform action " ++ A.name ++ ".")),
         { st with permCalls := st.permCalls + 1 })) := by
  constructor
  · intro hA r st' h
    exact perform_permCalls_internal A hA payload uid st r st' h
  · intro hval hperm
    unfold perform
    rw [validateAll_ok A payload hval]
    simp [check_permissions, hperm]

theorem claim_C7_witness :
    ((perform denyAction [[]] 3 true lockDemoState).2).permCalls = lockDemoState.permCalls ∧
    perform denyAction [[]] 3 false lockDemoState =
      (.error (.permissionDenied
        ("You are not allowed to perform action " ++ denyAction.name ++ ".")),
       { lockDemoState with permCalls := lockDemoState.permCalls + 1 }) :=
  ⟨(claim_C7 denyAction [[]] 3 lockDemoState).1
      ⟨fun _ _ => rfl, fun _ _ => rfl, fun _ _ => rfl, fun _ _ _ => rfl⟩ _ _ rfl,
   (claim_C7 denyAction [[]] 3 lockDemoState).2
      (by intro e he; rcases List.mem_singleton.mp he with rfl; rfl) rfl⟩

/-- C8: each relation update element yields exactly one Update event
targeting the referenced entity (the fully-qualified field's collection
and id), annotated "Object attached to X" for a field add, "Object
attachment to X reset" for a field remove, and "Object updated" for a
list update, whose event carries only the non-empty add/remove sides. -/
theorem claim_C8 (user_id : Int) (relation_updates : List (FQField × RelationUpdate)) :
    handle_relation_updates user_id relation_updates =
      relation_updates.map (fun p =>
        match p.2 with
        | .fieldUpdate isAdd value =>
          { events := [{ type := EventType.update,
                         fqid := { collection := p.1.collection, id := p.1.id },
                         fields := [(p.1.field, value)],
                         list_fields := { add := [], remove := [] } }],
            information := [({ collection := p.1.collection, id := p.1.id },
              [if isAdd then "Object attached to " ++ p.1.collection
               else "Object attachment to " ++ p.1.collection ++ " reset"])],
            user_id := user_id,
            locked_fields := [] }
        | .listUpdate add remove =>
          { events := [{ type := EventType.update,
                         fqid := { collection := p.1.collection, id := p.1.id },
                         fields := [],
                         list_fields :=
                           { add := if add.isEmpty then [] else [(p.1.field, add)],
                             remove := if remove.isEmpty then [] else [(p.1.field, remove)] } }],
            information := [({ collection := p.1.collection, id := p.1.id }, ["Object updated"])],
            user_id := user_id,
            locked_fields := [] }) := by
  induction relation_updates with
  | nil => rfl
  | cons p rest ih =>
    obtain ⟨fqf, ru⟩ := p
    cases ru <;> simp only [handle_relation_updates, List.map] at ih ⊢ <;>
      rw [ih] <;> rfl

/-- When every referenced list of speakers answers with an absent or
empty (falsy) `speaker_ids`, the expansion yields no instances and the
datastore state keeps its read behaviour and permission counter. -/
lemma deleteAllSpeakersExpand_nil (payload : List Fields) :
    ∀ st : DSState,
    (∀ i : Int,
      (getD (st.store { collection := "list_of_speakers", id := i } ["speaker_ids"]) "speaker_ids").truthy = false) →
    (deleteAllSpeakersExpand [] payload st).1 = [] ∧
    (deleteAllSpeakersExpand [] payload st).2.store = st.store ∧
    (deleteAllSpeakersExpand [] payload st).2.permCalls = st.permCalls := by
  induction payload with
  | nil => intro st _; exact ⟨rfl, rfl, rfl⟩
  | cons inst rest ih =>
    intro st h
    have hv := h (valueToInt (getD inst "id"))
    rcases ih ((fetch_model []
        { collection := "list_of_speakers", id := valueToInt (getD inst "id") }
        ["speaker_ids"] st).2) h with ⟨h1, h2, h3⟩
    simp only [deleteAllSpeakersExpand]
    refine ⟨?_, h2, h3⟩
    rw [show (getD ((fetch_model []
        { collection := "list_of_speakers", id := valueToInt (getD inst "id") }
        ["speaker_ids"] st).1) "speaker_ids").truthy = false from hv]
    simpa using h1

/-- C9: `list_of_speakers.delete_all_speakers` on lists whose
`speaker_ids` is absent or empty expands to no instances, and the whole
`perform` returns no write request (none) and no results, whatever the
delete machinery, schema, permission outcome and `internal` flag. -/
theorem claim_C9 (sv : Fields → Except String Unit) (perm : Int → List Fields → Bool)
    (bui : Fields → DSState → (Except Err Fields) × DSState)
    (grel : Fields → DSState → (Except Err (List (FQField × RelationUpdate))) × DSState)
    (cwr : Int → Fields → DSState → (Except Err (List WriteRequest)) × DSState)
    (care : Fields → Option Fields)
    (payload : List Fields) (uid : Int) (internal : Bool) (st : DSState)
    (hval : ∀ e ∈ payload, sv e = .ok ())
    (hperm : perm uid payload = true)
    (hids : ∀ i : Int,
      (getD (st.store { collection := "list_of_speakers", id := i } ["speaker_ids"]) "speaker_ids").truthy = false) :
    (deleteAllSpeakersExpand [] payload st).1 = [] ∧
    (perform (losDeleteAllSpeakers sv perm bui grel cwr care []) payload uid internal st).1 =
      .ok (none, []) := by
  refine ⟨(deleteAllSpeakersExpand_nil payload st hids).1, ?_⟩
  unfold perform
  rw [validateAll_ok _ payload hval]
  cases internal with
  | true =>
    have hexp := deleteAllSpeakersExpand_nil payload st hids
    simp [losDeleteAllSpeakers, hexp.1, processInstances, process_write_requests,
      merge_write_requests, mergeLoop]
  | false =>
    have hexp := deleteAllSpeakersExpand_nil payload
      { st with permCalls := st.permCalls + 1 } hids
    simp [losDeleteAllSpeakers, check_permissions, hperm, hexp.1, processInstances,
      process_write_requests, merge_write_requests, mergeLoop]

theorem claim_C9_witness :
    (perform (losDeleteAllSpeakers (fun _ => .ok ()) (fun _ _ => true)
        (fun i st => (.ok i, st)) (fun _ st => (.ok [], st)) (fun _ _ st => (.ok [], st))
        (fun _ => none) []) [[("id", Value.vint 23)]] 7 false lockDemoState).1 =
      .ok (none, []) :=
  (claim_C9 (fun _ => .ok ()) (fun _ _ => true)
    (fun i st => (.ok i, st)) (fun _ st => (.ok [], st)) (fun _ _ st => (.ok [], st))
    (fun _ => none) [[("id", Value.vint 23)]] 7 false lockDemoState
    (fun _ _ => rfl) rfl (fun _ => rfl)).2

/-- C10: `fetch_model` answers from `additional_relation_models` when
the fqid is present there — restricted to the requested mapped fields
when that list is non-empty, with absent fields mapped to `None` — and
leaves the datastore state (hence the locked-fields registry)
untouched; only an absent fqid reaches the datastore, via a read with
`lock_result` set, which registers exactly one entry. -/
theorem claim_C10 (arm : ModelMap) (fqid : FQId) (mapped_fields : List String) (st : DSState) :
    (∀ m, lookupModel arm fqid = some m →
      fetch_model arm fqid mapped_fields st =
        ((if mapped_fields.isEmpty then m
          else mapped_fields.map (fun f => (f, getD m f))), st)) ∧
    (lookupModel arm fqid = none →
      fetch_model arm fqid mapped_fields st =
        (st.store fqid mapped_fields,
         { st with locked_fields := st.locked_fields ++ [(fqid, mapped_fields)] })) ∧
    (∀ (m : Fields) (f : String), getField m f = none → getD m f = Value.vnone) := by
  refine ⟨?_, ?_, ?_⟩
  · intro m hm
    unfold fetch_model
    rw [hm]
    split
    next am heq =>
      injection heq with heq2
      subst heq2
      by_cases hmf : mapped_fields.isEmpty <;> simp [hmf]
    next heq => cases heq
  · intro hm
    unfold fetch_model
    rw [hm]
    rfl
  · intro m f h
    unfold getD
    rw [h]
    rfl

theorem claim_C10_witness :
    fetch_model [({ collection := "motion", id := 4 }, [("title", Value.vstr "m")])]
        { collection := "motion", id := 4 } ["title", "mid"] lockDemoState =
      ((if (["title", "mid"] : List String).isEmpty then [("title", Value.vstr "m")]
        else ["title", "mid"].map (fun f => (f, getD [("title", Value.vstr "m")] f))),
       lockDemoState) :=
  (claim_C10 [({ collection := "motion", id := 4 }, [("title", Value.vstr "m")])]
    { collection := "motion", id := 4 } ["title", "mid"] lockDemoState).1
    [("title", Value.vstr "m")] rfl
